import Mathlib

/-!
Verification of the runsd core against its specification.

The development shallowly embeds the Go sources of runsd: the Name Mapper
(`resolveCloudRunHost` in proxy.go), the rewriting reverse proxy
(the `Director` of `newReverseProxyHandler` and `authenticatingTransport.RoundTrip`
in proxytransport.go), the DNS hijack server (`handleLocal`, `recurse`, `nxdomain`,
`servfail` in dns.go), the region oracle (`regionFromMetadata` in regions.go) and
the project-hash extraction (`hashFromURL`). Go strings are lists of characters;
I/O (metadata fetches, the upstream DNS exchange) is passed in as explicit
arguments so all definitions are pure and executable.
-/

/-- Go strings are modelled as lists of characters. -/
abbrev GoStr := List Char

/-- Converts a Lean string literal to the `GoStr` model. -/
def gs (s : String) : GoStr := s.data

/-- Decidable equality for `Except`, so concrete runs of the embedded
functions can be checked by `decide`. -/
instance {α β : Type} [DecidableEq α] [DecidableEq β] : DecidableEq (Except α β) := fun x y =>
  match x, y with
  | .ok a, .ok b => if h : a = b then .isTrue (by rw [h]) else .isFalse (by simp [h])
  | .error a, .error b => if h : a = b then .isTrue (by rw [h]) else .isFalse (by simp [h])
  | .ok _, .error _ => .isFalse (by simp)
  | .error _, .ok _ => .isFalse (by simp)

/-- Models Go `strings.ToLower` on one character. Go lowercases the full
Unicode range; only the ASCII range matters for the hostnames and region
names handled here, which is what this models (`'A'..'Z'` map to
`'a'..'z'`, everything else is unchanged). -/
def goToLowerChar (c : Char) : Char :=
  if 'A' ≤ c ∧ c ≤ 'Z' then Char.ofNat (c.toNat + 32) else c

/-- Models Go `strings.ToLower`. -/
def goToLower (s : GoStr) : GoStr := s.map goToLowerChar

/-- Models Go `strings.Contains(s, string(c))` for a one-character substring. -/
def goContainsChar (s : GoStr) (c : Char) : Bool := decide (c ∈ s)

/-- Models Go `strings.TrimSuffix(s, sfx)`: removes one trailing occurrence
of `sfx` when present. -/
def goTrimSuffix (s sfx : GoStr) : GoStr :=
  if sfx <:+ s then s.take (s.length - sfx.length) else s

/-- Models Go `strings.Trim(s, string(c))`: removes the leading and trailing
runs of the character `c`. -/
def goTrimChar (s : GoStr) (c : Char) : GoStr :=
  ((s.dropWhile (· == c)).reverse.dropWhile (· == c)).reverse

/-- Splits at the first occurrence of `c`: the pieces before and after it,
or `none` when `c` does not occur. Go `strings.SplitN(s, string(c), 2)` and
`strings.Split(s, string(c))` are built on this. -/
def splitFirst : GoStr → Char → Option (GoStr × GoStr)
  | [], _ => none
  | x :: xs, c =>
    if x = c then some ([], xs)
    else
      match splitFirst xs c with
      | some (a, b) => some (x :: a, b)
      | none => none

/-- Models Go `strings.SplitN(s, string(c), 2)`. -/
def goSplitN2 (s : GoStr) (c : Char) : List GoStr :=
  match splitFirst s c with
  | some (a, b) => [a, b]
  | none => [s]

/-- Models Go `strings.Split(s, string(c))` (structural formulation: one
token per separator-free run, split at each occurrence of `c`). -/
def goSplitAll : GoStr → Char → List GoStr
  | [], _ => [[]]
  | x :: xs, c =>
    if x = c then [] :: goSplitAll xs c
    else
      match goSplitAll xs c with
      | t :: rest => (x :: t) :: rest
      | [] => [[x]]

/-- Models Go `%q` formatting of a hostname: wraps the string in double
quotes, escaping backslash and double-quote characters (the other escapes
of `%q` do not arise for the hostnames formatted here). -/
def goQuote (s : GoStr) : GoStr :=
  '"' :: s.foldr (fun c acc => if c = '"' ∨ c = '\\' then '\\' :: c :: acc else c :: acc) ['"']

/-- Region catalog of `regions.go` (`cloudRunRegionCodes`): the canonical
region name to short region code mapping, loaded at build time. -/
def cloudRunRegionCodes : List (GoStr × GoStr) := [
  (gs "asia-east1", gs "de"),
  (gs "asia-east2", gs "df"),
  (gs "asia-northeast1", gs "an"),
  (gs "asia-northeast2", gs "dt"),
  (gs "asia-northeast3", gs "du"),
  (gs "asia-south1", gs "el"),
  (gs "asia-south2", gs "em"),
  (gs "asia-southeast1", gs "as"),
  (gs "asia-southeast2", gs "et"),
  (gs "australia-southeast1", gs "ts"),
  (gs "australia-southeast2", gs "km"),
  (gs "europe-central2", gs "lm"),
  (gs "europe-north1", gs "lz"),
  (gs "europe-west1", gs "ew"),
  (gs "europe-west2", gs "nw"),
  (gs "europe-west3", gs "ey"),
  (gs "europe-west4", gs "ez"),
  (gs "europe-west6", gs "oa"),
  (gs "northamerica-northeast1", gs "nn"),
  (gs "southamerica-east1", gs "rj"),
  (gs "us-central1", gs "uc"),
  (gs "us-east1", gs "ue"),
  (gs "us-east4", gs "uk"),
  (gs "us-west1", gs "uw"),
  (gs "us-west2", gs "wl"),
  (gs "us-west3", gs "wm"),
  (gs "us-west4", gs "wn")]

/-- Models the Go map lookup `cloudRunRegionCodes[r]`. -/
def regionCode (r : GoStr) : Option GoStr := cloudRunRegionCodes.lookup r

/-- Error values produced by `resolveCloudRunHost` (the `fmt.Errorf` calls in
proxy.go), carrying the formatted arguments. -/
inductive ResolveErr where
  | regionNotHandled (region : GoStr)
  | tooManyDots (hostname trimmed : GoStr)
  | regionNotHandledInferred (region hostname : GoStr)
  deriving DecidableEq

/-- Renders a `ResolveErr` the way the Go `error` strings read. -/
def resolveErrString : ResolveErr → GoStr
  | .regionNotHandled region => gs "region " ++ goQuote region ++ gs " is not handled"
  | .tooManyDots hostname trimmed =>
      gs "found too many dots in hostname " ++ goQuote hostname ++ gs ", (trimmed: " ++
        trimmed ++ gs ")"
  | .regionNotHandledInferred region hostname =>
      gs "region " ++ goQuote region ++ gs " is not handled (inferred from hostname " ++
        hostname ++ gs "), try upgrading runsd"

/-- Translates `mkCloudRunHost` from proxy.go:
`fmt.Sprintf("%s-%s-%s.a.run.app", svc, projectHash, regionCode)`. -/
def mkCloudRunHost (svc rc projectHash : GoStr) : GoStr :=
  svc ++ '-' :: projectHash ++ '-' :: rc ++ gs ".a.run.app"

/-- Translates `resolveCloudRunHost` from proxy.go: the Name Mapper taking the
internal zone, the incoming host, the current region and the project hash to
the canonical Cloud Run hostname. The `splitFirst … = none` branch mirrors the
Go indexing `splits[0], splits[1]`; it is unreachable because the trimmed string
contains exactly one dot there. -/
def resolveCloudRunHost (internalDomain hostname curRegion projectHash : GoStr) :
    Except ResolveErr GoStr :=
  let h := goToLower hostname
  if goContainsChar h '.' = false then
    match regionCode curRegion with
    | none => .error (.regionNotHandled curRegion)
    | some rc => .ok (mkCloudRunHost h rc projectHash)
  else
    let trimmed := goTrimSuffix h ('.' :: goTrimChar internalDomain '.')
    if trimmed.count '.' ≠ 1 then .error (.tooManyDots h trimmed)
    else
      match splitFirst trimmed '.' with
      | none => .error (.tooManyDots h trimmed)
      | some (svc, svcRegion) =>
        match regionCode svcRegion with
        | none => .error (.regionNotHandledInferred svcRegion h)
        | some rc => .ok (mkCloudRunHost svc rc projectHash)

/-- An HTTP response as far as the proxy synthesizes one locally: the status
code and the body (`http.Response` fields set by the Director and by
`authenticatingTransport.RoundTrip` on their error paths). -/
structure ProxyResponse where
  statusCode : Nat
  body : GoStr
  deriving DecidableEq

/-- The slice of `http.Request` the reverse proxy reads and writes: the
request host, the URL scheme and host, the `Authorization`, `User-Agent` and
`Host` headers (a `[]` header value models an absent header, as Go's
`Header.Get` returns `""` then), and the `ctxKeyEarlyResponse` context value
planted by the Director on a mapper error. -/
structure ProxyRequest where
  host : GoStr
  urlScheme : GoStr
  urlHost : GoStr
  authorization : GoStr
  userAgent : GoStr
  hostHeader : GoStr
  earlyResponse : Option ProxyResponse
  deriving DecidableEq

/-- The `reverseProxy` struct: project hash, current region and internal
domain, immutable after bootstrap. -/
structure ProxyConfig where
  projectHash : GoStr
  currentRegion : GoStr
  internalDomain : GoStr
  deriving DecidableEq

/-- Splits a string at its last colon (Go `net.SplitHostPort` locates the
port after the last colon). -/
def lastSplitAtColon (s : GoStr) : Option (GoStr × GoStr) :=
  match splitFirst s.reverse ':' with
  | none => none
  | some (pRev, hRev) => some (hRev.reverse, pRev.reverse)

/-- Models Go `net.SplitHostPort` for the shapes an HTTP Host value takes:
split at the last colon; a bracketed IPv6 host loses its brackets; `none`
models the error return (no colon, or a stray colon in the host part). -/
def splitHostPort (s : GoStr) : Option (GoStr × GoStr) :=
  match lastSplitAtColon s with
  | none => none
  | some (h, p) =>
    if h.head? = some '[' then
      if h.getLast? = some ']' then some ((h.drop 1).dropLast, p) else none
    else if goContainsChar h ':' then none
    else some (h, p)

/-- The port-discarding step at the top of the Director:
`if h, p, err := net.SplitHostPort(origHost); err == nil { origHost = h }`. -/
def stripPort (host : GoStr) : GoStr :=
  match splitHostPort host with
  | some (h, _) => h
  | none => host

/-- Body of the early 500 response the Director builds on a mapper error:
`fmt.Sprintf("runsd doesn't know how to handle host=%q: %v", req.Host, err)`. -/
def mapperErrorBody (host : GoStr) (e : ResolveErr) : GoStr :=
  gs "runsd doesn't know how to handle host=" ++ goQuote host ++ gs ": " ++ resolveErrString e

/-- Body of the 500 response `authenticatingTransport.RoundTrip` builds when
the identity token fetch fails:
`fmt.Sprintf("failed to fetch metadata token: %v", err)`. -/
def tokenErrorBody (err : GoStr) : GoStr :=
  gs "failed to fetch metadata token: " ++ err

/-- Translates the `Director` closure of `newReverseProxyHandler`: strip the
port from the incoming host, run the Name Mapper; on error plant an early
500 response in the request context, otherwise rewrite the URL scheme to
https and the URL host, request host and `Host` header to the canonical
Cloud Run host. -/
def director (rp : ProxyConfig) (req : ProxyRequest) : ProxyRequest :=
  let origHost := stripPort req.host
  match resolveCloudRunHost rp.internalDomain origHost rp.currentRegion rp.projectHash with
  | .error e =>
      { req with earlyResponse := some { statusCode := 500, body := mapperErrorBody req.host e } }
  | .ok runHost =>
      { req with urlScheme := gs "https", urlHost := runHost, host := runHost,
                 hostHeader := runHost }

/-- What a round trip through `authenticatingTransport` does with a request:
either it returns a locally synthesized response (the early response from the
Director, or the token-fetch 500) without touching the network, or it hands
the rewritten request to the inner transport `next.RoundTrip`. -/
inductive RTResult where
  | response (r : ProxyResponse)
  | forward (req : ProxyRequest)
  deriving DecidableEq

/-- Translates `authenticatingTransport.RoundTrip` (proxytransport.go): return
any early response planted by the Director; fetch an identity token for
audience `https://` + the request host, failing with a 500 response; inject
`Authorization: Bearer <token>` only when the header is absent; tag the
`User-Agent`; finally forward to the inner transport. The `idToken` argument
is the `identityToken` metadata call, passed in as an oracle; `ver` is the
build version string. `loggingTransport`, which wraps this transport in
`newReverseProxyHandler`, only logs and passes the request through unchanged,
so it is not modelled separately. -/
def roundTrip (idToken : GoStr → Except GoStr GoStr) (ver : GoStr) (req : ProxyRequest) :
    RTResult :=
  match req.earlyResponse with
  | some v => .response v
  | none =>
    match idToken (gs "https://" ++ req.host) with
    | .error e => .response { statusCode := 500, body := tokenErrorBody e }
    | .ok tok =>
      let req1 := if req.authorization = [] then
          { req with authorization := gs "Bearer " ++ tok } else req
      let ua := req1.userAgent
      let req2 := { req1 with userAgent := gs "runsd version=" ++ ver }
      let req3 := if ua ≠ [] then { req2 with userAgent := req2.userAgent ++ gs "; " ++ ua }
        else req2
      .forward req3

/-- One request through the reverse proxy handler: the Director rewrite
followed by `authenticatingTransport.RoundTrip` (the order
`httputil.ReverseProxy` guarantees). -/
def proxyPipeline (rp : ProxyConfig) (idToken : GoStr → Except GoStr GoStr) (ver : GoStr)
    (req : ProxyRequest) : RTResult :=
  roundTrip idToken ver (director rp req)

/-- The `dnsHijack` struct (dns.go): internal zone, upstream nameserver,
required dot count and IPv6 availability. -/
structure DnsConfig where
  domain : GoStr
  nameserver : GoStr
  dots : Nat
  serveIPv6 : Bool
  deriving DecidableEq

/-- A DNS question type as the handler distinguishes them: `A`, `AAAA`, or
any other type (carrying the numeric code). -/
inductive Qtype where
  | A
  | AAAA
  | other (code : Nat)
  deriving DecidableEq

/-- A DNS question: owner name and type. -/
structure DnsQuestion where
  name : GoStr
  qtype : Qtype
  deriving DecidableEq

/-- Resource record data for the record types the server synthesizes or
relays; addresses are carried as strings. -/
inductive DnsRData where
  | A (addr : GoStr)
  | AAAA (addr : GoStr)
  | other (payload : GoStr)
  deriving DecidableEq

/-- A DNS resource record: owner name, TTL and data. -/
structure DnsRR where
  name : GoStr
  ttl : Nat
  rdata : DnsRData
  deriving DecidableEq

/-- The `dns.RcodeSuccess` constant (NOERROR). -/
def rcodeSuccess : Nat := 0

/-- The `dns.RcodeServerFailure` constant (SERVFAIL). -/
def rcodeServerFailure : Nat := 2

/-- The `dns.RcodeNameError` constant (NXDOMAIN). -/
def rcodeNameError : Nat := 3

/-- The `dns.OpcodeQuery` constant. -/
def opcodeQuery : Nat := 0

/-- The slice of a `dns.Msg` the server reads and writes: header fields,
question section and answer section. -/
structure DnsMsg where
  msgId : Nat
  response : Bool
  opcode : Nat
  authoritative : Bool
  recursionDesired : Bool
  recursionAvailable : Bool
  rcode : Nat
  question : List DnsQuestion
  answer : List DnsRR
  deriving DecidableEq

/-- Models `dns.Msg.SetReply` of the miekg/dns library applied to a zero
message (`new(dns.Msg)` followed by `r.SetReply(msg)`): copy the id and
opcode, mark the message a response, set `RcodeSuccess`, copy
`RecursionDesired` for a query opcode, and keep only the request's first
question. -/
def setReply (request : DnsMsg) : DnsMsg :=
  { msgId := request.msgId
    response := true
    opcode := request.opcode
    authoritative := false
    recursionDesired := if request.opcode = opcodeQuery then request.recursionDesired else false
    recursionAvailable := false
    rcode := rcodeSuccess
    question := request.question.take 1
    answer := [] }

/-- Translates `nxdomain` (dns.go): an authoritative NXDOMAIN reply to `msg`. -/
def nxdomain (msg : DnsMsg) : DnsMsg :=
  { setReply msg with authoritative := true, rcode := rcodeNameError }

/-- Translates `servfail` (dns.go): the reply built on a recursive exchange
failure (`SetReply` then `Rcode = RcodeServerFailure`; note the code sets no
`Authoritative` flag although its comment says "authoritative SERVFAIL"). -/
def servfail (msg : DnsMsg) : DnsMsg :=
  { setReply msg with rcode := rcodeServerFailure }

/-- The loopback IPv4 address `ipv4Loopback` serialized. -/
def ipv4LoopbackStr : GoStr := gs "127.0.0.1"

/-- The loopback IPv6 address `net.IPv6loopback` serialized. -/
def ipv6LoopbackStr : GoStr := gs "::1"

/-- Outcome of the first loop of `handleLocal` over the question section:
defer to recursion (a non-A/AAAA type), answer NXDOMAIN (ndots or region
check failed), return without replying (the `len(parts) < 2` guard), or fall
through to the success reply. -/
inductive CheckResult where
  | deferRecurse
  | nx
  | noReply
  | pass
  deriving DecidableEq

/-- The first loop of `handleLocal` (dns.go): for each question, defer
non-A/AAAA types to recursion; NXDOMAIN when the name's dot count differs
from the configured ndots; parse the region as everything after the first
dot of the name with `"." + domain` trimmed off, returning silently when no
dot remains, and NXDOMAIN when the region is not in the catalog. -/
def checkQuestions (d : DnsConfig) : List DnsQuestion → CheckResult
  | [] => .pass
  | q :: rest =>
    if q.qtype ≠ .A ∧ q.qtype ≠ .AAAA then .deferRecurse
    else if q.name.count '.' ≠ d.dots then .nx
    else
      match goSplitN2 (goTrimSuffix q.name ('.' :: d.domain)) '.' with
      | [_, region] =>
        match regionCode region with
        | some _ => checkQuestions d rest
        | none => .nx
      | _ => .noReply

/-- The answer-building loop of `handleLocal`: one `A 127.0.0.1` record per
`A` question and, when IPv6 is served, one `AAAA ::1` record per `AAAA`
question, each with TTL 10. -/
def synthAnswers (d : DnsConfig) : List DnsQuestion → List DnsRR
  | [] => []
  | q :: rest =>
    match q.qtype with
    | .A => { name := q.name, ttl := 10, rdata := .A ipv4LoopbackStr } :: synthAnswers d rest
    | .AAAA =>
      if d.serveIPv6 then
        { name := q.name, ttl := 10, rdata := .AAAA ipv6LoopbackStr } :: synthAnswers d rest
      else synthAnswers d rest
    | .other _ => synthAnswers d rest

/-- The reply `handleLocal` writes when every question passes its checks:
`SetReply`, the `Authoritative` flag, and the synthesized loopback answers. -/
def successReply (d : DnsConfig) (msg : DnsMsg) : DnsMsg :=
  { setReply msg with authoritative := true, answer := synthAnswers d msg.question }

/-- What the server writes back for one incoming message: a reply, or
nothing (the silent-return path of `handleLocal`; also how a message without
questions is modelled). -/
inductive ServerOutcome where
  | reply (m : DnsMsg)
  | noReply
  deriving DecidableEq

/-- Translates `recurse` (dns.go): forward the message to the upstream
nameserver and write its response back verbatim (the HEAD code has
`r.SetReply(msg)` removed, with a comment that dropping it preserves the
response sections); on an exchange error write the `servfail` reply. The
`exchange` argument carries the result of the single
`new(dns.Client).Exchange(msg, nameserver+":53")` call. -/
def recurse (exchange : Except GoStr DnsMsg) (msg : DnsMsg) : DnsMsg :=
  match exchange with
  | .ok r => r
  | .error _ => servfail msg

/-- Translates `handleLocal` (dns.go), with the recursion it may defer to:
run the checks over the question section, then write the NXDOMAIN, recursive
or success reply — or nothing on the silent-return path. -/
def handleLocal (d : DnsConfig) (exchange : Except GoStr DnsMsg) (msg : DnsMsg) :
    ServerOutcome :=
  match checkQuestions d msg.question with
  | .deferRecurse => .reply (recurse exchange msg)
  | .nx => .reply (nxdomain msg)
  | .noReply => .noReply
  | .pass => .reply (successReply d msg)

/-- Whether a query name falls under the registered zone pattern: the
miekg/dns mux matches case-insensitively on whole labels, so the name equals
the zone or ends in `"." + zone`. -/
def nameUnderZone (domain name : GoStr) : Bool :=
  goToLower name == goToLower domain || decide (('.' :: goToLower domain) <:+ goToLower name)

/-- The served mux (`dnsHijack.handler`): `handleLocal` for names under the
internal zone, `recurse` for every other name, routed on the first question
as the miekg/dns mux does; a message without questions gets no routed reply. -/
def dnsHandler (d : DnsConfig) (exchange : Except GoStr DnsMsg) (msg : DnsMsg) :
    ServerOutcome :=
  match msg.question with
  | [] => .noReply
  | q :: _ =>
    if nameUnderZone d.domain q.name then handleLocal d exchange msg
    else .reply (recurse exchange msg)

/-- The character class `[a-z]` of the `reRegion` pattern. -/
def isLowerAZ (c : Char) : Bool := 'a' ≤ c ∧ c ≤ 'z'

/-- The character class `[a-z0-9]` of the `reRegion` pattern. -/
def isLowerAlnum (c : Char) : Bool := ('a' ≤ c ∧ c ≤ 'z') ∨ ('0' ≤ c ∧ c ≤ '9')

/-- Matches the pattern `/zones/([a-z]+-[a-z0-9]+)` at the start of `s`,
returning the capture group. The greedy quantifiers are deterministic here:
`[a-z]+` must take the maximal letter run (a shorter run would put a letter
where the literal `-` is required), and nothing follows `[a-z0-9]+`. -/
def parseRegionAt (s : GoStr) : Option GoStr :=
  if gs "/zones/" <+: s then
    let rest := s.drop 7
    let l := rest.takeWhile isLowerAZ
    match l, rest.dropWhile isLowerAZ with
    | _ :: _, '-' :: rest2 =>
      match rest2.takeWhile isLowerAlnum with
      | [] => none
      | d => some (l ++ '-' :: d)
    | _, _ => none
  else none

/-- Models `reRegion.FindStringSubmatch`: the capture of the leftmost match
of `/zones/([a-z]+-[a-z0-9]+)` in `v`, scanning start positions left to
right. -/
def reRegionFind : GoStr → Option GoStr
  | [] => none
  | c :: rest =>
    match parseRegionAt (c :: rest) with
    | some r => some r
    | none => reRegionFind rest

/-- Translates `regionFromMetadata` (regions.go): the metadata fetch of the
instance zone is passed in as `fetchZone` (the result of
`queryMetadata("…/instance/zone")`); on success the region is the regex
capture, and a failed match is the `unable to parse zone value` error. -/
def regionFromMetadata (fetchZone : Except GoStr GoStr) : Except GoStr GoStr :=
  match fetchZone with
  | .error e => .error e
  | .ok v =>
    match reRegionFind v with
    | none => .error (gs "unable to parse zone value " ++ v)
    | some r => .ok r

/-- Translates `hashFromURL` (the project-hash extraction for the admin-API
service URL): trim the `.a.run.app` suffix, split on `-`, take the
second-to-last token. The Go indexing `tkns[len(tkns)-2]` panics when fewer
than two tokens result; the panic is modelled as `none`. -/
def hashFromURL (url : GoStr) : Option GoStr :=
  let s := goTrimSuffix url (gs ".a.run.app")
  let tkns := goSplitAll s '-'
  if h : 2 ≤ tkns.length then some (tkns.get ⟨tkns.length - 2, by omega⟩) else none

/-- Concrete proxy configuration used by the witness runs: the project hash
and region of the spec's worked example. -/
def wProxyCfg : ProxyConfig :=
  { projectHash := gs "dpyb4duzqq", currentRegion := gs "us-central1",
    internalDomain := gs "run.internal." }

/-- Token oracle that always succeeds, for witness runs. -/
def wTokenOk : GoStr → Except GoStr GoStr := fun _ => .ok (gs "tok123")

/-- Token oracle that always fails, for witness runs. -/
def wTokenErr : GoStr → Except GoStr GoStr := fun _ => .error (gs "metadata timeout")

/-- Concrete incoming request with Host `hello` and no Authorization header. -/
def wReqHello : ProxyRequest :=
  { host := gs "hello", urlScheme := gs "http", urlHost := gs "hello",
    authorization := [], userAgent := gs "curl/7.64", hostHeader := gs "hello",
    earlyResponse := none }

/-- The rewritten request the proxy forwards for `wReqHello`. -/
def wFwdHello : ProxyRequest :=
  { host := gs "hello-dpyb4duzqq-uc.a.run.app", urlScheme := gs "https",
    urlHost := gs "hello-dpyb4duzqq-uc.a.run.app",
    authorization := gs "Bearer tok123",
    userAgent := gs "runsd version=v1; curl/7.64",
    hostHeader := gs "hello-dpyb4duzqq-uc.a.run.app", earlyResponse := none }

/-- Concrete DNS server configuration with the default zone and ndots. -/
def wDnsCfg : DnsConfig :=
  { domain := gs "run.internal.", nameserver := gs "169.254.169.254",
    dots := 4, serveIPv6 := true }

/-- A single-question query message for witness runs. -/
def wQuery (n : String) (t : Qtype) : DnsMsg :=
  { msgId := 42, response := false, opcode := 0, authoritative := false,
    recursionDesired := true, recursionAvailable := false, rcode := 0,
    question := [{ name := gs n, qtype := t }], answer := [] }

/-- A concrete upstream response (an NXDOMAIN for an external name), to watch
the recursive path relay it. -/
def wUpstream : DnsMsg :=
  { msgId := 42, response := true, opcode := 0, authoritative := false,
    recursionDesired := true, recursionAvailable := true, rcode := rcodeNameError,
    question := [{ name := gs "example.com.", qtype := .A }], answer := [] }

/-- Trimming a suffix that is literally there removes exactly it. -/
theorem goTrimSuffix_append (x y : GoStr) : goTrimSuffix (x ++ y) y = x := by
  unfold goTrimSuffix
  rw [if_pos (List.suffix_append x y)]
  have hl : (x ++ y).length - y.length = x.length := by simp
  rw [hl, List.take_left]

/-- Trimming a suffix that is not there is the identity. -/
theorem goTrimSuffix_of_not {s y : GoStr} (h : ¬ y <:+ s) : goTrimSuffix s y = s := by
  unfold goTrimSuffix
  rw [if_neg h]

/-- The head of `dropWhile p` never satisfies `p`. -/
theorem dropWhile_head_not {p : Char → Bool} {l : List Char} {c : Char}
    (h : (l.dropWhile p).head? = some c) : p c = false := by
  induction l with
  | nil => simp [List.dropWhile] at h
  | cons x xs ih =>
    by_cases hp : p x
    · rw [List.dropWhile_cons, if_pos hp] at h
      exact ih h
    · rw [List.dropWhile_cons, if_neg hp] at h
      simp at h
      subst h
      simpa using hp

/-- `takeWhile` and `dropWhile` on a list made of an all-`p` part, a
non-`p` character and a tail split exactly at that character. -/
theorem takeWhile_dropWhile_split {p : Char → Bool} {l : List Char}
    (hl : ∀ a ∈ l, p a) {c : Char} (hc : p c = false) (r : List Char) :
    (l ++ c :: r).takeWhile p = l ∧ (l ++ c :: r).dropWhile p = c :: r := by
  induction l with
  | nil => simp [List.takeWhile_cons, List.dropWhile_cons, hc]
  | cons x xs ih =>
    have hx : p x := hl x (by simp)
    have hxs : ∀ a ∈ xs, p a := fun a ha => hl a (by simp [ha])
    obtain ⟨ht, hd⟩ := ih hxs
    constructor
    · simpa [List.takeWhile_cons, hx] using ht
    · simpa [List.dropWhile_cons, hx] using hd

/-- ASCII lowercasing maps no character onto the dot. -/
theorem goToLowerChar_ne_dot {c : Char} (h : c ≠ '.') : goToLowerChar c ≠ '.' := by
  unfold goToLowerChar
  split
  · rename_i hAZ
    obtain ⟨h1, h2⟩ := hAZ
    have hb1 : 65 ≤ c.toNat := by
      have := Char.le_def.mp h1
      simpa [Char.toNat] using this
    have hb2 : c.toNat ≤ 90 := by
      have := Char.le_def.mp h2
      simpa [Char.toNat] using this
    set n := c.toNat with hn
    interval_cases n <;> decide
  · exact h

/-- ASCII lowercasing fixes the dot and nothing else maps to it. -/
theorem goToLowerChar_eq_dot_iff (c : Char) : goToLowerChar c = '.' ↔ c = '.' := by
  constructor
  · intro h
    by_contra hc
    exact goToLowerChar_ne_dot hc h
  · intro h
    subst h
    decide

/-- Lowercasing preserves the dot count of a string. -/
theorem count_dot_goToLower (s : GoStr) : (goToLower s).count '.' = s.count '.' := by
  induction s with
  | nil => rfl
  | cons x xs ih =>
    simp only [goToLower, List.map_cons, List.count_cons] at *
    rw [ih]
    congr 1
    by_cases hx : x = '.'
    · subst hx
      simp [show goToLowerChar '.' = '.' from by decide]
    · have hnd : goToLowerChar x ≠ '.' := goToLowerChar_ne_dot hx
      simp [hx, hnd]

/-- A successful association-list lookup pinpoints a member pair. -/
theorem lookup_mem {α β : Type} [BEq α] [LawfulBEq α] {l : List (α × β)} {k : α} {v : β}
    (h : l.lookup k = some v) : (k, v) ∈ l := by
  induction l with
  | nil => simp [List.lookup] at h
  | cons p rest ih =>
    obtain ⟨k', v'⟩ := p
    rw [List.lookup] at h
    by_cases hk : k == k'
    · rw [hk] at h
      simp at h
      have : k = k' := by simpa using hk
      subst this
      subst h
      simp
    · have hkb : (k == k') = false := by simpa using hk
      rw [hkb] at h
      simp
      right
      exact ih h

/-- Facts about every key of the region catalog used by the proofs: keys
contain no dot, are already lowercase, and are unrelated by the suffix
order to the trimmed default zone `.run.internal`. -/
theorem regionKeyFacts : ∀ p ∈ cloudRunRegionCodes,
    p.1.count '.' = 0 ∧ goToLower p.1 = p.1 ∧
    ¬ (gs ".run.internal" <:+ ('.' :: p.1)) ∧ ¬ (('.' :: p.1) <:+ gs ".run.internal") := by
  decide
/-- Characterization of `splitFirst`: a `some` result is the split at an
occurrence of `c` with no `c` before it. -/
theorem splitFirst_eq_some {s : GoStr} {c : Char} {a b : GoStr}
    (h : splitFirst s c = some (a, b)) : s = a ++ c :: b ∧ a.count c = 0 := by
  induction s generalizing a b with
  | nil => simp [splitFirst] at h
  | cons x xs ih =>
    by_cases hx : x = c
    · simp [splitFirst, hx] at h
      obtain ⟨ha, hb⟩ := h
      subst ha; subst hb; subst hx
      simp
    · simp only [splitFirst, if_neg hx] at h
      cases hsf : splitFirst xs c with
      | none => rw [hsf] at h; simp at h
      | some ab =>
        obtain ⟨a', b'⟩ := ab
        rw [hsf] at h
        simp at h
        obtain ⟨ha, hb⟩ := h
        subst ha; subst hb
        obtain ⟨hxs, hcnt⟩ := ih hsf
        constructor
        · rw [hxs]; simp
        · simp [List.count_cons, hcnt, hx]

/-- `splitFirst` returns `none` exactly when the character does not occur. -/
theorem splitFirst_eq_none {s : GoStr} {c : Char} (h : splitFirst s c = none) :
    s.count c = 0 := by
  induction s with
  | nil => simp
  | cons x xs ih =>
    by_cases hx : x = c
    · simp [splitFirst, hx] at h
    · simp only [splitFirst, if_neg hx] at h
      cases hsf : splitFirst xs c with
      | none => simp [List.count_cons, hx, ih hsf]
      | some ab => rw [hsf] at h; simp at h

/-- `splitFirst` on a string whose head part is `c`-free splits exactly there. -/
theorem splitFirst_append {a : GoStr} {c : Char} (b : GoStr) (ha : a.count c = 0) :
    splitFirst (a ++ c :: b) c = some (a, b) := by
  induction a with
  | nil => simp [splitFirst]
  | cons x xs ih =>
    have hx : x ≠ c := by
      intro hxc
      subst hxc
      simp [List.count_cons] at ha
    have hxs : xs.count c = 0 := by
      simp [List.count_cons, hx] at ha
      omega
    simp [splitFirst, hx, ih hxs]

/-- A hostname the catalog maps to a region code contains no dot. -/
theorem regionCode_key_dotfree {r c : GoStr} (h : regionCode r = some c) : r.count '.' = 0 :=
  (regionKeyFacts _ (lookup_mem h)).1

/-- A `Bearer` authorization value is never the empty header. -/
theorem bearer_ne_nil (tok : GoStr) : gs "Bearer " ++ tok ≠ [] := by
  rw [show gs "Bearer " = 'B' :: gs "earer " from by decide]
  simp

/-- `goSplitAll` always yields at least one token. -/
theorem goSplitAll_ne_nil (s : GoStr) (c : Char) : goSplitAll s c ≠ [] := by
  cases s with
  | nil => simp [goSplitAll]
  | cons x xs =>
    by_cases hx : x = c
    · simp [goSplitAll, hx]
    · simp only [goSplitAll, if_neg hx]
      cases goSplitAll xs c <;> simp

/-- Without the separator, `goSplitAll` yields the whole string as its one
token. -/
theorem goSplitAll_of_count_zero {s : GoStr} {c : Char} (h : s.count c = 0) :
    goSplitAll s c = [s] := by
  induction s with
  | nil => rfl
  | cons x xs ih =>
    have hx : x ≠ c := by
      intro hxc
      subst hxc
      simp [List.count_cons] at h
    have hxs : xs.count c = 0 := by
      simp [List.count_cons, hx] at h
      omega
    simp only [goSplitAll, if_neg hx]
    rw [ih hxs]

/-- With at least one separator, `goSplitAll` yields at least two tokens. -/
theorem goSplitAll_two_le {s : GoStr} {c : Char} (h : s.count c ≠ 0) :
    2 ≤ (goSplitAll s c).length := by
  induction s with
  | nil => simp at h
  | cons x xs ih =>
    by_cases hx : x = c
    · simp only [goSplitAll, if_pos hx]
      have hne := goSplitAll_ne_nil xs c
      cases hg : goSplitAll xs c with
      | nil => exact absurd hg hne
      | cons t rest => simp
    · have hxs : xs.count c ≠ 0 := by
        simpa [List.count_cons, hx] using h
      have hih := ih hxs
      simp only [goSplitAll, if_neg hx]
      cases hg : goSplitAll xs c with
      | nil => exact absurd hg (goSplitAll_ne_nil xs c)
      | cons t rest =>
        rw [hg] at hih
        simp at hih ⊢
        omega
/-- Characterization of a successful match of `/zones/([a-z]+-[a-z0-9]+)` at
the start of the string: the capture sits verbatim after the literal, has the
letters-dash-alnums shape, and the greedy `[a-z0-9]+` leaves no alnum behind. -/
theorem parseRegionAt_eq_some {s r : GoStr} (h : parseRegionAt s = some r) :
    (∃ rest, s = gs "/zones/" ++ r ++ rest ∧
      (∀ c, rest.head? = some c → isLowerAlnum c = false)) ∧
    (∃ l d, r = l ++ '-' :: d ∧ l ≠ [] ∧ (∀ a ∈ l, isLowerAZ a) ∧
      d ≠ [] ∧ (∀ a ∈ d, isLowerAlnum a)) := by
  unfold parseRegionAt at h
  split at h
  · rename_i hpre
    obtain ⟨rest0, hrest0⟩ := hpre
    have hdrop : s.drop 7 = rest0 := by
      rw [← hrest0]
      exact List.drop_left (gs "/zones/") rest0
    rw [hdrop] at h
    have h2 : (match rest0.takeWhile isLowerAZ, rest0.dropWhile isLowerAZ with
      | _ :: _, '-' :: rest2 =>
        match rest2.takeWhile isLowerAlnum with
        | [] => none
        | d => some (rest0.takeWhile isLowerAZ ++ '-' :: d)
      | _, _ => none) = some r := h
    clear h
    rename' h2 => h
    split at h
    · rename_i x l' rest2 hl hd
      -- hl : rest0.takeWhile isLowerAZ = x :: l', hd : rest0.dropWhile isLowerAZ = '-' :: rest2
      cases htw : rest2.takeWhile isLowerAlnum with
      | nil => rw [htw] at h; simp at h
      | cons y d' =>
        rw [htw] at h
        simp at h
        -- h : r = takeWhile ... ++ '-' :: (y :: d')  (reversed?)
        have hrest2 : rest2 = (y :: d') ++ rest2.dropWhile isLowerAlnum := by
          conv_lhs => rw [← List.takeWhile_append_dropWhile isLowerAlnum rest2]
          rw [htw]
        have hrest0eq : rest0 = (x :: l') ++ '-' :: rest2 := by
          conv_lhs => rw [← List.takeWhile_append_dropWhile isLowerAZ rest0]
          rw [hl, hd]
        constructor
        · refine ⟨rest2.dropWhile isLowerAlnum, ?_, ?_⟩
          · rw [← hrest0, hrest0eq, ← h]
            rw [hl]
            conv_lhs => rw [hrest2]
            simp
          · intro c hc
            exact dropWhile_head_not hc
        · refine ⟨x :: l', y :: d', ?_, by simp, ?_, by simp, ?_⟩
          · rw [← h, hl]
          · intro a ha
            rw [← hl] at ha
            exact List.mem_takeWhile_imp ha
          · intro a ha
            rw [← htw] at ha
            exact List.mem_takeWhile_imp ha
    · exact absurd h (by simp)
  · exact absurd h (by simp)

/-- Characterization of `reRegionFind`: a found capture occurs verbatim in
the scanned string after `/zones/` and has the pattern shape. -/
theorem reRegionFind_eq_some {v r : GoStr} (h : reRegionFind v = some r) :
    ∃ pre rest, v = pre ++ gs "/zones/" ++ r ++ rest ∧
      (∀ c, rest.head? = some c → isLowerAlnum c = false) ∧
      (∃ l d, r = l ++ '-' :: d ∧ l ≠ [] ∧ (∀ a ∈ l, isLowerAZ a) ∧
        d ≠ [] ∧ (∀ a ∈ d, isLowerAlnum a)) := by
  induction v with
  | nil => simp [reRegionFind] at h
  | cons c cs ih =>
    rw [reRegionFind] at h
    cases hp : parseRegionAt (c :: cs) with
    | some r' =>
      rw [hp] at h
      simp at h
      subst h
      obtain ⟨⟨rest, hv, hhead⟩, hshape⟩ := parseRegionAt_eq_some hp
      exact ⟨[], rest, by simpa using hv, hhead, hshape⟩
    | none =>
      rw [hp] at h
      obtain ⟨pre, rest, hv, hhead, hshape⟩ := ih h
      exact ⟨c :: pre, rest, by simp [hv], hhead, hshape⟩

/-- The pattern matches at any position that spells out
`/zones/` followed by letters, a dash and alnums. -/
theorem parseRegionAt_of_shape {l d : GoStr} (post : GoStr) (hl : l ≠ [])
    (hlall : ∀ a ∈ l, isLowerAZ a) (hd : d ≠ []) (hdall : ∀ a ∈ d, isLowerAlnum a) :
    (parseRegionAt (gs "/zones/" ++ (l ++ '-' :: (d ++ post)))).isSome := by
  unfold parseRegionAt
  rw [if_pos (List.prefix_append _ _)]
  simp only []
  have hdrop : List.drop 7 (gs "/zones/" ++ (l ++ '-' :: (d ++ post)))
      = l ++ '-' :: (d ++ post) := by
    rw [show (7 : Nat) = (gs "/zones/").length from by decide]
    exact List.drop_left _ _
  rw [hdrop]
  have hdash : isLowerAZ '-' = false := by decide
  obtain ⟨htw, hdw⟩ := takeWhile_dropWhile_split hlall hdash (d ++ post)
  rw [htw, hdw]
  cases l with
  | nil => exact absurd rfl hl
  | cons x l' =>
    simp only []
    cases hdp : (d ++ post).takeWhile isLowerAlnum with
    | nil =>
      exfalso
      cases d with
      | nil => exact absurd rfl hd
      | cons y d' =>
        have hy : isLowerAlnum y := hdall y (by simp)
        rw [List.cons_append, List.takeWhile_cons, if_pos hy] at hdp
        simp at hdp
    | cons y d' => simp

/-- Scanning finds a match whenever some position of the string matches. -/
theorem reRegionFind_isSome_append (pre tail : GoStr)
    (h : (parseRegionAt tail).isSome) : (reRegionFind (pre ++ tail)).isSome := by
  induction pre with
  | nil =>
    simp only [List.nil_append]
    cases tail with
    | nil => rw [show parseRegionAt [] = none from by decide] at h; simp at h
    | cons x xs =>
      rw [reRegionFind]
      cases hp : parseRegionAt (x :: xs) with
      | some r => simp
      | none => rw [hp] at h; simp at h
  | cons p ps ih =>
    rw [List.cons_append, reRegionFind]
    cases hp : parseRegionAt (p :: (ps ++ tail)) with
    | some r => simp
    | none => simpa using ih


/-- C1: every request the reverse proxy hands to the inner transport (the
`forward` outcome of the Director-then-`authenticatingTransport.RoundTrip`
pipeline) carries the URL scheme `https` and a non-empty `Authorization`
header; an incoming `Authorization` header is forwarded unchanged, and an
absent one becomes `Bearer ` plus the identity token fetched for audience
`https://` + the canonical host produced by the Name Mapper. -/
theorem proxy_forward_https_and_auth (rp : ProxyConfig)
    (idToken : GoStr → Except GoStr GoStr) (ver : GoStr) (req r : ProxyRequest)
    (h : proxyPipeline rp idToken ver req = .forward r) :
    r.urlScheme = gs "https" ∧ r.authorization ≠ [] ∧
    (req.authorization ≠ [] → r.authorization = req.authorization) ∧
    (req.authorization = [] → ∃ canonicalHost tok,
      resolveCloudRunHost rp.internalDomain (stripPort req.host) rp.currentRegion rp.projectHash
        = .ok canonicalHost ∧
      idToken (gs "https://" ++ canonicalHost) = .ok tok ∧
      r.authorization = gs "Bearer " ++ tok) := by
  simp only [proxyPipeline, director] at h
  cases hres : resolveCloudRunHost rp.internalDomain (stripPort req.host) rp.currentRegion
      rp.projectHash with
  | error e =>
    rw [hres] at h
    simp [roundTrip] at h
  | ok runHost =>
    rw [hres] at h
    cases hE : req.earlyResponse with
    | some v => simp [roundTrip, hE] at h
    | none =>
      cases htok : idToken (gs "https://" ++ runHost) with
      | error e => simp [roundTrip, hE, htok] at h
      | ok tok =>
        by_cases hau : req.authorization = []
        · by_cases hua : req.userAgent = []
          · simp [roundTrip, hE, htok, hau, hua] at h
            subst h
            exact ⟨rfl, bearer_ne_nil tok, fun hne => absurd hau hne,
              fun _ => ⟨runHost, tok, rfl, htok, rfl⟩⟩
          · simp [roundTrip, hE, htok, hau, hua] at h
            subst h
            exact ⟨rfl, bearer_ne_nil tok, fun hne => absurd hau hne,
              fun _ => ⟨runHost, tok, rfl, htok, rfl⟩⟩
        · by_cases hua : req.userAgent = []
          · simp [roundTrip, hE, htok, hau, hua] at h
            subst h
            exact ⟨rfl, hau, fun _ => rfl, fun heq => absurd heq hau⟩
          · simp [roundTrip, hE, htok, hau, hua] at h
            subst h
            exact ⟨rfl, hau, fun _ => rfl, fun heq => absurd heq hau⟩

/-- Witness for C1: the spec's worked example — Host `hello`, region
`us-central1`, hash `dpyb4duzqq` — is forwarded as
`https://hello-dpyb4duzqq-uc.a.run.app` with `Authorization: Bearer tok123`. -/
theorem proxy_forward_https_and_auth_witness :
    proxyPipeline wProxyCfg wTokenOk (gs "v1") wReqHello = .forward wFwdHello ∧
    (wFwdHello.urlScheme = gs "https" ∧ wFwdHello.authorization ≠ [] ∧
      (wReqHello.authorization ≠ [] → wFwdHello.authorization = wReqHello.authorization) ∧
      (wReqHello.authorization = [] → ∃ canonicalHost tok,
        resolveCloudRunHost wProxyCfg.internalDomain (stripPort wReqHello.host)
            wProxyCfg.currentRegion wProxyCfg.projectHash = .ok canonicalHost ∧
        wTokenOk (gs "https://" ++ canonicalHost) = .ok tok ∧
        wFwdHello.authorization = gs "Bearer " ++ tok)) :=
  ⟨by decide, proxy_forward_https_and_auth wProxyCfg wTokenOk (gs "v1") wReqHello wFwdHello
    (by decide)⟩

/-- C2: every host the Name Mapper accepts maps to
`{svc}-{project_hash}-{region_code}.a.run.app`, where `svc` is the service
label of the lowercased input and the region code is the catalog value for
the current region (dot-free input) or for the region label parsed out of
the input; in particular `hello` with region `us-central1` and hash
`dpyb4duzqq` maps to `hello-dpyb4duzqq-uc.a.run.app`. -/
theorem resolveCloudRunHost_canonical_shape
    (internalDomain hostname curRegion projectHash out : GoStr)
    (h : resolveCloudRunHost internalDomain hostname curRegion projectHash = .ok out) :
    ((goContainsChar (goToLower hostname) '.' = false ∧
      ∃ rc, regionCode curRegion = some rc ∧
        out = mkCloudRunHost (goToLower hostname) rc projectHash) ∨
     (goContainsChar (goToLower hostname) '.' = true ∧
      ∃ svc region rc,
        splitFirst (goTrimSuffix (goToLower hostname) ('.' :: goTrimChar internalDomain '.')) '.'
          = some (svc, region) ∧
        regionCode region = some rc ∧ out = mkCloudRunHost svc rc projectHash)) ∧
    resolveCloudRunHost (gs "run.internal.") (gs "hello") (gs "us-central1") (gs "dpyb4duzqq")
      = .ok (gs "hello-dpyb4duzqq-uc.a.run.app") := by
  refine ⟨?_, by decide⟩
  simp only [resolveCloudRunHost] at h
  split at h
  · rename_i hc
    cases hrc : regionCode curRegion with
    | none => rw [hrc] at h; simp at h
    | some rc =>
      rw [hrc] at h
      simp at h
      exact Or.inl ⟨hc, rc, rfl, h.symm⟩
  · rename_i hc
    have hc' : goContainsChar (goToLower hostname) '.' = true := by
      simpa using hc
    split at h
    · simp at h
    · rename_i hcount
      split at h
      · simp at h
      · rename_i svc region hsf
        cases hrc : regionCode region with
        | none => rw [hrc] at h; simp at h
        | some rc =>
          rw [hrc] at h
          simp at h
          exact Or.inr ⟨hc', svc, region, rc, hsf, hrc, h.symm⟩

/-- Witness for C2: the mapping run at the spec's worked example. -/
theorem resolveCloudRunHost_canonical_shape_witness :
    resolveCloudRunHost (gs "run.internal.") (gs "hello") (gs "us-central1") (gs "dpyb4duzqq")
      = .ok (gs "hello-dpyb4duzqq-uc.a.run.app") ∧
    (((goContainsChar (goToLower (gs "hello")) '.' = false ∧
      ∃ rc, regionCode (gs "us-central1") = some rc ∧
        gs "hello-dpyb4duzqq-uc.a.run.app"
          = mkCloudRunHost (goToLower (gs "hello")) rc (gs "dpyb4duzqq")) ∨
     (goContainsChar (goToLower (gs "hello")) '.' = true ∧
      ∃ svc region rc,
        splitFirst (goTrimSuffix (goToLower (gs "hello"))
            ('.' :: goTrimChar (gs "run.internal.") '.')) '.' = some (svc, region) ∧
        regionCode region = some rc ∧
        gs "hello-dpyb4duzqq-uc.a.run.app" = mkCloudRunHost svc rc (gs "dpyb4duzqq"))) ∧
    resolveCloudRunHost (gs "run.internal.") (gs "hello") (gs "us-central1") (gs "dpyb4duzqq")
      = .ok (gs "hello-dpyb4duzqq-uc.a.run.app")) :=
  ⟨by decide, resolveCloudRunHost_canonical_shape (gs "run.internal.") (gs "hello")
    (gs "us-central1") (gs "dpyb4duzqq") (gs "hello-dpyb4duzqq-uc.a.run.app") (by decide)⟩

/-- C3: a mapper failure makes the pipeline return the Director's early 500
response (body naming the offending host) and a token-fetch failure makes it
return the 500 with the fetch error; in both cases the outcome is a local
`response`, never a `forward` to the upstream transport. -/
theorem proxy_mapper_and_token_errors_local_500 :
    (∀ (rp : ProxyConfig) (idToken : GoStr → Except GoStr GoStr) (ver : GoStr)
       (req : ProxyRequest) (e : ResolveErr),
      resolveCloudRunHost rp.internalDomain (stripPort req.host) rp.currentRegion rp.projectHash
        = .error e →
      proxyPipeline rp idToken ver req =
        .response { statusCode := 500, body := mapperErrorBody req.host e }) ∧
    (∀ (rp : ProxyConfig) (idToken : GoStr → Except GoStr GoStr) (ver : GoStr)
       (req : ProxyRequest) (runHost err : GoStr),
      req.earlyResponse = none →
      resolveCloudRunHost rp.internalDomain (stripPort req.host) rp.currentRegion rp.projectHash
        = .ok runHost →
      idToken (gs "https://" ++ runHost) = .error err →
      proxyPipeline rp idToken ver req =
        .response { statusCode := 500, body := tokenErrorBody err }) := by
  constructor
  · intro rp idToken ver req e hres
    simp only [proxyPipeline, director]
    rw [hres]
    simp [roundTrip]
  · intro rp idToken ver req runHost err hE hres htok
    simp only [proxyPipeline, director]
    rw [hres]
    simp [roundTrip, hE, htok]

/-- Witness for C3: host `a.b.c` draws the mapper 500, and a failing token
oracle draws the token 500, both without a forward. -/
theorem proxy_mapper_and_token_errors_local_500_witness :
    (resolveCloudRunHost wProxyCfg.internalDomain
        (stripPort ({ wReqHello with host := gs "a.b.c" } : ProxyRequest).host)
        wProxyCfg.currentRegion wProxyCfg.projectHash
      = .error (.tooManyDots (gs "a.b.c") (gs "a.b.c")) ∧
     proxyPipeline wProxyCfg wTokenOk (gs "v1") { wReqHello with host := gs "a.b.c" } =
      .response { statusCode := 500,
                  body := mapperErrorBody (gs "a.b.c")
                    (.tooManyDots (gs "a.b.c") (gs "a.b.c")) }) ∧
    (wReqHello.earlyResponse = none ∧
     resolveCloudRunHost wProxyCfg.internalDomain (stripPort wReqHello.host)
        wProxyCfg.currentRegion wProxyCfg.projectHash
      = .ok (gs "hello-dpyb4duzqq-uc.a.run.app") ∧
     wTokenErr (gs "https://" ++ gs "hello-dpyb4duzqq-uc.a.run.app")
      = .error (gs "metadata timeout") ∧
     proxyPipeline wProxyCfg wTokenErr (gs "v1") wReqHello =
      .response { statusCode := 500, body := tokenErrorBody (gs "metadata timeout") }) :=
  ⟨⟨by decide, proxy_mapper_and_token_errors_local_500.1 wProxyCfg wTokenOk (gs "v1")
      { wReqHello with host := gs "a.b.c" } (.tooManyDots (gs "a.b.c") (gs "a.b.c"))
      (by decide)⟩,
   ⟨by decide, by decide, by decide,
    proxy_mapper_and_token_errors_local_500.2 wProxyCfg wTokenErr (gs "v1") wReqHello
      (gs "hello-dpyb4duzqq-uc.a.run.app") (gs "metadata timeout")
      (by decide) (by decide) (by decide)⟩⟩

/-- C4: for a catalog region `r`, any project hash and any dot-free service
name, the short form, the region-qualified form `svc.r` and the fully
zone-qualified form `svc.r.run.internal` (the default zone, written as a
proxy Host value, so without the trailing dot) all resolve to the same
canonical host. -/
theorem resolve_short_and_qualified_agree (svc region code ph : GoStr)
    (hk : regionCode region = some code) (hdot : svc.count '.' = 0) :
    resolveCloudRunHost (gs "run.internal.") svc region ph
      = .ok (mkCloudRunHost (goToLower svc) code ph) ∧
    resolveCloudRunHost (gs "run.internal.") (svc ++ '.' :: region) region ph
      = .ok (mkCloudRunHost (goToLower svc) code ph) ∧
    resolveCloudRunHost (gs "run.internal.") (svc ++ '.' :: (region ++ gs ".run.internal"))
        region ph
      = .ok (mkCloudRunHost (goToLower svc) code ph) := by
  obtain ⟨hrd, hrl, hns1, hns2⟩ := regionKeyFacts _ (lookup_mem hk)
  replace hrd : region.count '.' = 0 := hrd
  replace hrl : goToLower region = region := hrl
  replace hns1 : ¬ (gs ".run.internal" <:+ ('.' :: region)) := hns1
  replace hns2 : ¬ (('.' :: region) <:+ gs ".run.internal") := hns2
  have hzone : ('.' :: goTrimChar (gs "run.internal.") '.') = gs ".run.internal" := by decide
  have hlowdot : (goToLower svc).count '.' = 0 := by
    rw [count_dot_goToLower]; exact hdot
  have hnotin : '.' ∉ goToLower svc := List.count_eq_zero.mp hlowdot
  have hdotlow : goToLowerChar '.' = '.' := by decide
  have hlow2 : goToLower (svc ++ '.' :: region) = goToLower svc ++ '.' :: region := by
    simp [goToLower, hdotlow]
    simpa [goToLower] using hrl
  have hcount2 : (goToLower svc ++ '.' :: region).count '.' = 1 := by
    rw [List.count_append, hlowdot, List.count_cons]
    simp [hrd]
  have hnosuf : ¬ (gs ".run.internal" <:+ (goToLower svc ++ '.' :: region)) := by
    intro hsuf
    have h2 : ('.' :: region) <:+ (goToLower svc ++ '.' :: region) :=
      List.suffix_append (goToLower svc) ('.' :: region)
    rcases List.suffix_or_suffix_of_suffix hsuf h2 with h3 | h3
    · exact hns1 h3
    · exact hns2 h3
  have hsplit : splitFirst (goToLower svc ++ '.' :: region) '.' = some (goToLower svc, region) :=
    splitFirst_append region hlowdot
  refine ⟨?_, ?_, ?_⟩
  · have hcf : goContainsChar (goToLower svc) '.' = false := by
      simp [goContainsChar, hnotin]
    simp [resolveCloudRunHost, hcf, hk]
  · have hmem : '.' ∈ goToLower (svc ++ '.' :: region) := by
      rw [hlow2]
      simp
    have hcf : goContainsChar (goToLower (svc ++ '.' :: region)) '.' = true := by
      simp [goContainsChar, hmem]
    simp only [resolveCloudRunHost, hcf]
    rw [hlow2, hzone]
    rw [goTrimSuffix_of_not hnosuf]
    simp [hcount2, hsplit, hk]
  · have hlowz : goToLower (gs ".run.internal") = gs ".run.internal" := by decide
    have hlow3 : goToLower (svc ++ '.' :: (region ++ gs ".run.internal"))
        = (goToLower svc ++ '.' :: region) ++ gs ".run.internal" := by
      unfold goToLower
      rw [List.map_append, List.map_cons, List.map_append, hdotlow]
      rw [show List.map goToLowerChar region = region from hrl]
      rw [show List.map goToLowerChar (gs ".run.internal") = gs ".run.internal" from hlowz]
      simp
    have hmem : '.' ∈ goToLower (svc ++ '.' :: (region ++ gs ".run.internal")) := by
      rw [hlow3]
      simp
    have hcf : goContainsChar (goToLower (svc ++ '.' :: (region ++ gs ".run.internal"))) '.'
        = true := by
      simp [goContainsChar, hmem]
    simp only [resolveCloudRunHost, hcf]
    rw [hlow3, hzone]
    rw [goTrimSuffix_append]
    simp [hcount2, hsplit, hk]

/-- Witness for C4: `hello`, `hello.us-central1` and
`hello.us-central1.run.internal` all map to `hello-dpyb4duzqq-uc.a.run.app`. -/
theorem resolve_short_and_qualified_agree_witness :
    (regionCode (gs "us-central1") = some (gs "uc") ∧ (gs "hello").count '.' = 0) ∧
    (resolveCloudRunHost (gs "run.internal.") (gs "hello") (gs "us-central1") (gs "dpyb4duzqq")
      = .ok (mkCloudRunHost (goToLower (gs "hello")) (gs "uc") (gs "dpyb4duzqq")) ∧
    resolveCloudRunHost (gs "run.internal.") (gs "hello" ++ '.' :: gs "us-central1")
        (gs "us-central1") (gs "dpyb4duzqq")
      = .ok (mkCloudRunHost (goToLower (gs "hello")) (gs "uc") (gs "dpyb4duzqq")) ∧
    resolveCloudRunHost (gs "run.internal.")
        (gs "hello" ++ '.' :: (gs "us-central1" ++ gs ".run.internal"))
        (gs "us-central1") (gs "dpyb4duzqq")
      = .ok (mkCloudRunHost (goToLower (gs "hello")) (gs "uc") (gs "dpyb4duzqq"))) :=
  ⟨⟨by decide, by decide⟩,
   resolve_short_and_qualified_agree (gs "hello") (gs "us-central1") (gs "uc")
     (gs "dpyb4duzqq") (by decide) (by decide)⟩

/-- C5: an A or AAAA query under the internal zone is answered with an
authoritative NXDOMAIN, carrying no loopback answer, whenever its dot count
differs from the configured ndots, or its region label — the label between
the service label and the zone — is not a key of the region catalog. -/
theorem dns_nxdomain_on_ndots_or_region (d : DnsConfig) (exchange : Except GoStr DnsMsg)
    (msg : DnsMsg) (q : DnsQuestion)
    (hq : msg.question = [q])
    (ht : q.qtype = .A ∨ q.qtype = .AAAA)
    (_hz : ('.' :: d.domain) <:+ q.name ∨ q.name = d.domain)
    (hfail : q.name.count '.' ≠ d.dots ∨
      (∃ svc region, q.name = svc ++ '.' :: (region ++ '.' :: d.domain) ∧
        region.count '.' = 0 ∧ regionCode region = none)) :
    handleLocal d exchange msg = .reply (nxdomain msg) ∧
    (nxdomain msg).rcode = rcodeNameError ∧ (nxdomain msg).authoritative = true ∧
    (nxdomain msg).answer = [] := by
  have hcheck : checkQuestions d [q] = .nx := by
    unfold checkQuestions
    have htA : ¬ (q.qtype ≠ Qtype.A ∧ q.qtype ≠ Qtype.AAAA) := by
      rcases ht with h | h <;> simp [h]
    rw [if_neg htA]
    by_cases hdots : q.name.count '.' ≠ d.dots
    · rw [if_pos hdots]
    · rw [if_neg hdots]
      rcases hfail with hf | ⟨svc, region, hname, hregdf, hrc⟩
      · exact absurd hf hdots
      · have hassoc : q.name = (svc ++ '.' :: region) ++ ('.' :: d.domain) := by
          rw [hname]
          simp
        rw [hassoc, goTrimSuffix_append]
        cases csvc : splitFirst (svc ++ '.' :: region) '.' with
        | none =>
          exfalso
          have hz0 := splitFirst_eq_none csvc
          rw [List.count_append, List.count_cons] at hz0
          simp at hz0
        | some ab =>
          obtain ⟨a, b⟩ := ab
          obtain ⟨heq, hacnt⟩ := splitFirst_eq_some csvc
          have hsp : goSplitN2 (svc ++ '.' :: region) '.' = [a, b] := by
            unfold goSplitN2
            rw [csvc]
          rw [hsp]
          have hbnone : regionCode b = none := by
            by_cases hsv : svc.count '.' = 0
            · have hsf : splitFirst (svc ++ '.' :: region) '.' = some (svc, region) :=
                splitFirst_append region hsv
              rw [hsf] at csvc
              simp at csvc
              obtain ⟨ha, hb⟩ := csvc
              rw [← hb]
              exact hrc
            · cases hb : regionCode b with
              | none => rfl
              | some c =>
                exfalso
                have hbdf := regionCode_key_dotfree hb
                have hcnt := congrArg (List.count '.') heq
                rw [List.count_append, List.count_append, List.count_cons, List.count_cons]
                  at hcnt
                simp at hcnt
                omega
          simp [hbnone]
  refine ⟨?_, rfl, rfl, rfl⟩
  unfold handleLocal
  rw [hq, hcheck]

/-- Witness for C5: the A query `abc.def.run.internal.` (right ndots, unknown
region `def`) draws the authoritative NXDOMAIN. -/
theorem dns_nxdomain_on_ndots_or_region_witness :
    ((wQuery "abc.def.run.internal." .A).question
        = [{ name := gs "abc.def.run.internal.", qtype := .A }] ∧
     (('.' :: wDnsCfg.domain) <:+ gs "abc.def.run.internal." ∨
       gs "abc.def.run.internal." = wDnsCfg.domain) ∧
     ((gs "abc.def.run.internal.").count '.' ≠ wDnsCfg.dots ∨
       (∃ svc region, gs "abc.def.run.internal."
           = svc ++ '.' :: (region ++ '.' :: wDnsCfg.domain) ∧
         region.count '.' = 0 ∧ regionCode region = none))) ∧
    (handleLocal wDnsCfg (.error (gs "unused")) (wQuery "abc.def.run.internal." .A)
        = .reply (nxdomain (wQuery "abc.def.run.internal." .A)) ∧
     (nxdomain (wQuery "abc.def.run.internal." .A)).rcode = rcodeNameError ∧
     (nxdomain (wQuery "abc.def.run.internal." .A)).authoritative = true ∧
     (nxdomain (wQuery "abc.def.run.internal." .A)).answer = []) :=
  ⟨⟨by decide, Or.inl (by decide),
    Or.inr ⟨gs "abc", gs "def", by decide, by decide, by decide⟩⟩,
   dns_nxdomain_on_ndots_or_region wDnsCfg (.error (gs "unused"))
     (wQuery "abc.def.run.internal." .A)
     { name := gs "abc.def.run.internal.", qtype := .A }
     (by decide) (Or.inl rfl) (Or.inl (by decide))
     (Or.inr ⟨gs "abc", gs "def", by decide, by decide, by decide⟩)⟩

/-- C6: an A or AAAA query under the internal zone that passes the ndots and
region checks gets an authoritative reply with, for A, exactly one A record
`127.0.0.1` with TTL 10, and for AAAA, exactly one AAAA record `::1` with
TTL 10 when IPv6 is served and no answer record otherwise. -/
theorem dns_loopback_answers_on_success (d : DnsConfig) (exchange : Except GoStr DnsMsg)
    (msg : DnsMsg) (q : DnsQuestion) (svc region code : GoStr)
    (hq : msg.question = [q])
    (hname : q.name = svc ++ '.' :: (region ++ '.' :: d.domain))
    (hsvc : svc.count '.' = 0)
    (hrc : regionCode region = some code)
    (hdots : q.name.count '.' = d.dots)
    (ht : q.qtype = .A ∨ q.qtype = .AAAA) :
    handleLocal d exchange msg = .reply (successReply d msg) ∧
    (successReply d msg).authoritative = true ∧
    (successReply d msg).rcode = rcodeSuccess ∧
    (q.qtype = .A →
      (successReply d msg).answer =
        [{ name := q.name, ttl := 10, rdata := .A ipv4LoopbackStr }]) ∧
    (q.qtype = .AAAA →
      (successReply d msg).answer =
        if d.serveIPv6 then [{ name := q.name, ttl := 10, rdata := .AAAA ipv6LoopbackStr }]
        else []) := by
  have hcheck : checkQuestions d [q] = .pass := by
    unfold checkQuestions
    have htA : ¬ (q.qtype ≠ Qtype.A ∧ q.qtype ≠ Qtype.AAAA) := by
      rcases ht with h | h <;> simp [h]
    rw [if_neg htA, if_neg (by simp [hdots])]
    have hassoc : q.name = (svc ++ '.' :: region) ++ ('.' :: d.domain) := by
      rw [hname]
      simp
    rw [hassoc, goTrimSuffix_append]
    have hsp : goSplitN2 (svc ++ '.' :: region) '.' = [svc, region] := by
      unfold goSplitN2
      rw [splitFirst_append region hsvc]
    rw [hsp]
    simp [hrc, checkQuestions]
  refine ⟨?_, rfl, rfl, ?_, ?_⟩
  · unfold handleLocal
    rw [hq, hcheck]
  · intro hA
    unfold successReply
    simp only [hq]
    simp [synthAnswers, hA]
  · intro hA
    unfold successReply
    simp only [hq]
    by_cases h6 : d.serveIPv6 <;> simp [synthAnswers, hA, h6]

/-- Witness for C6: the A query `abc.us-central1.run.internal.` gets the
single authoritative `A 127.0.0.1` answer with TTL 10. -/
theorem dns_loopback_answers_on_success_witness :
    ((wQuery "abc.us-central1.run.internal." .A).question
        = [{ name := gs "abc.us-central1.run.internal.", qtype := .A }] ∧
     gs "abc.us-central1.run.internal."
        = gs "abc" ++ '.' :: (gs "us-central1" ++ '.' :: wDnsCfg.domain) ∧
     (gs "abc").count '.' = 0 ∧
     regionCode (gs "us-central1") = some (gs "uc") ∧
     (gs "abc.us-central1.run.internal.").count '.' = wDnsCfg.dots) ∧
    (handleLocal wDnsCfg (.error (gs "unused")) (wQuery "abc.us-central1.run.internal." .A)
        = .reply (successReply wDnsCfg (wQuery "abc.us-central1.run.internal." .A)) ∧
     (successReply wDnsCfg (wQuery "abc.us-central1.run.internal." .A)).authoritative = true ∧
     (successReply wDnsCfg (wQuery "abc.us-central1.run.internal." .A)).answer =
        [{ name := gs "abc.us-central1.run.internal.", ttl := 10,
           rdata := .A ipv4LoopbackStr }]) :=
  ⟨⟨by decide, by decide, by decide, by decide, by decide⟩,
   by
    obtain ⟨h1, h2, _, h4, _⟩ := dns_loopback_answers_on_success wDnsCfg
      (.error (gs "unused")) (wQuery "abc.us-central1.run.internal." .A)
      { name := gs "abc.us-central1.run.internal.", qtype := .A }
      (gs "abc") (gs "us-central1") (gs "uc")
      (by decide) (by decide) (by decide) (by decide) (by decide) (Or.inl rfl)
    exact ⟨h1, h2, h4 rfl⟩⟩

/-- C7: for a query whose name is not under the internal zone, a successful
upstream exchange is relayed verbatim — the reply sent to the client agrees
with the upstream response on every modelled field (header flags, rcode,
question and answer sections), i.e. it is byte-equivalent barring the ID. -/
theorem dns_recurse_preserves_upstream_response (d : DnsConfig) (msg r : DnsMsg)
    (q : DnsQuestion) (rest : List DnsQuestion)
    (hq : msg.question = q :: rest)
    (hz : nameUnderZone d.domain q.name = false) :
    ∃ m, dnsHandler d (.ok r) msg = .reply m ∧
      m.response = r.response ∧ m.opcode = r.opcode ∧ m.authoritative = r.authoritative ∧
      m.recursionDesired = r.recursionDesired ∧ m.recursionAvailable = r.recursionAvailable ∧
      m.rcode = r.rcode ∧ m.question = r.question ∧ m.answer = r.answer := by
  refine ⟨r, ?_, rfl, rfl, rfl, rfl, rfl, rfl, rfl, rfl⟩
  unfold dnsHandler
  rw [hq]
  simp [hz, recurse]

/-- Witness for C7: an upstream NXDOMAIN for `example.com.` is handed back
with its rcode and sections intact. -/
theorem dns_recurse_preserves_upstream_response_witness :
    ((wQuery "example.com." .A).question = [{ name := gs "example.com.", qtype := .A }] ∧
     nameUnderZone wDnsCfg.domain (gs "example.com.") = false) ∧
    (∃ m, dnsHandler wDnsCfg (.ok wUpstream) (wQuery "example.com." .A) = .reply m ∧
      m.response = wUpstream.response ∧ m.opcode = wUpstream.opcode ∧
      m.authoritative = wUpstream.authoritative ∧
      m.recursionDesired = wUpstream.recursionDesired ∧
      m.recursionAvailable = wUpstream.recursionAvailable ∧
      m.rcode = wUpstream.rcode ∧ m.question = wUpstream.question ∧
      m.answer = wUpstream.answer) :=
  ⟨⟨by decide, by decide⟩,
   dns_recurse_preserves_upstream_response wDnsCfg (wQuery "example.com." .A) wUpstream
     { name := gs "example.com.", qtype := .A } [] (by decide) (by decide)⟩

/-- C8: on an upstream exchange error the server builds exactly the
`servfail` reply — Rcode `ServerFailure` — but, divergently from the claim
and from the `servfail` doc comment ("an authoritative SERVFAIL reply"), the
code never sets the `Authoritative` flag: the reply carries
`authoritative = false`. -/
theorem dns_servfail_reply_not_authoritative :
    dnsHandler wDnsCfg (.error (gs "read udp 127.0.0.1:53: i/o timeout"))
        (wQuery "example.com." .A)
      = .reply (servfail (wQuery "example.com." .A)) ∧
    (servfail (wQuery "example.com." .A)).rcode = rcodeServerFailure ∧
    (servfail (wQuery "example.com." .A)).authoritative = false ∧
    (servfail (wQuery "example.com." .A)).response = true := by
  decide

/-- C9: `regionFromMetadata` propagates fetch errors; a successful result is
exactly a verbatim `[a-z]+-[a-z0-9]+` capture standing after `/zones/` in
the zone value (with the greedy match leaving no alphanumeric behind); it
errs exactly on values containing no such match — so regions ending in a
digit, like `us-east1` in zone `us-east1-d`, are extracted correctly. -/
theorem regionFromMetadata_regex_extraction (v : GoStr) :
    (∀ e, regionFromMetadata (.error e) = .error e) ∧
    (∀ r, regionFromMetadata (.ok v) = .ok r →
      (∃ pre rest, v = pre ++ gs "/zones/" ++ r ++ rest ∧
        (∀ c, rest.head? = some c → isLowerAlnum c = false)) ∧
      (∃ l d, r = l ++ '-' :: d ∧ l ≠ [] ∧ (∀ a ∈ l, isLowerAZ a) ∧
        d ≠ [] ∧ (∀ a ∈ d, isLowerAlnum a))) ∧
    ((¬ ∃ pre l d post, v = pre ++ gs "/zones/" ++ (l ++ '-' :: (d ++ post)) ∧
        l ≠ [] ∧ (∀ a ∈ l, isLowerAZ a) ∧ d ≠ [] ∧ (∀ a ∈ d, isLowerAlnum a)) →
      regionFromMetadata (.ok v) = .error (gs "unable to parse zone value " ++ v)) ∧
    ((∃ pre l d post, v = pre ++ gs "/zones/" ++ (l ++ '-' :: (d ++ post)) ∧
        l ≠ [] ∧ (∀ a ∈ l, isLowerAZ a) ∧ d ≠ [] ∧ (∀ a ∈ d, isLowerAlnum a)) →
      (regionFromMetadata (.ok v)).isOk = true) := by
  have hrm : regionFromMetadata (.ok v) = (match reRegionFind v with
    | none => Except.error (gs "unable to parse zone value " ++ v)
    | some r => Except.ok r) := rfl
  refine ⟨fun e => rfl, ?_, ?_, ?_⟩
  · intro r h
    rw [hrm] at h
    cases hf : reRegionFind v with
    | none => rw [hf] at h; simp at h
    | some r' =>
      rw [hf] at h
      simp at h
      subst h
      obtain ⟨pre, rest, hv, hhead, hshape⟩ := reRegionFind_eq_some hf
      exact ⟨⟨pre, rest, hv, hhead⟩, hshape⟩
  · intro hno
    rw [hrm]
    cases hf : reRegionFind v with
    | none => rfl
    | some r =>
      exfalso
      apply hno
      obtain ⟨pre, rest, hv, hhead, l, d, hr, hl, hlall, hd, hdall⟩ := reRegionFind_eq_some hf
      refine ⟨pre, l, d, rest, ?_, hl, hlall, hd, hdall⟩
      rw [hv, hr]
      simp
  · rintro ⟨pre, l, d, post, hv, hl, hlall, hd, hdall⟩
    rw [hrm]
    have h1 := parseRegionAt_of_shape post hl hlall hd hdall
    have h2 := reRegionFind_isSome_append pre _ h1
    rw [hv]
    cases hf : reRegionFind (pre ++ gs "/zones/" ++ (l ++ '-' :: (d ++ post))) with
    | none =>
      exfalso
      have hassoc : pre ++ gs "/zones/" ++ (l ++ '-' :: (d ++ post))
          = pre ++ (gs "/zones/" ++ (l ++ '-' :: (d ++ post))) := by simp
      rw [hassoc] at hf
      rw [hf] at h2
      simp at h2
    | some r => rfl

/-- Witness for C9: the zone value `projects/…/zones/us-east1-d` yields the
region `us-east1` — the trailing-digit region the naive split mishandles —
and the capture indeed stands verbatim after `/zones/`. -/
theorem regionFromMetadata_regex_extraction_witness :
    regionFromMetadata (.ok (gs "projects/599880261659/zones/us-east1-d"))
      = .ok (gs "us-east1") ∧
    ((∃ pre rest, gs "projects/599880261659/zones/us-east1-d"
        = pre ++ gs "/zones/" ++ gs "us-east1" ++ rest ∧
      (∀ c, rest.head? = some c → isLowerAlnum c = false)) ∧
     (∃ l d, gs "us-east1" = l ++ '-' :: d ∧ l ≠ [] ∧ (∀ a ∈ l, isLowerAZ a) ∧
      d ≠ [] ∧ (∀ a ∈ d, isLowerAlnum a))) :=
  ⟨by decide,
   (regionFromMetadata_regex_extraction (gs "projects/599880261659/zones/us-east1-d")).2.1
     (gs "us-east1") (by decide)⟩

/-- C10: `hashFromURL` is partial — when the URL with `.a.run.app` trimmed
contains no `-`, the Go indexing `tkns[len(tkns)-2]` is out of range (the
panic is modelled as `none`); with at least one `-` the extraction succeeds. -/
theorem hashFromURL_partial_without_dash :
    (∀ url : GoStr, (goTrimSuffix url (gs ".a.run.app")).count '-' = 0 →
      hashFromURL url = none) ∧
    (∀ url : GoStr, (goTrimSuffix url (gs ".a.run.app")).count '-' ≠ 0 →
      (hashFromURL url).isSome = true) := by
  constructor
  · intro url h
    unfold hashFromURL
    simp only []
    have hl := goSplitAll_of_count_zero h
    rw [dif_neg (by rw [hl]; simp)]
  · intro url h
    unfold hashFromURL
    simp only []
    have h2 := goSplitAll_two_le h
    rw [dif_pos h2]
    simp

/-- Witness for C10: a dash-free URL panics (modelled `none`); the worked
example URL yields its hash. -/
theorem hashFromURL_partial_without_dash_witness :
    ((goTrimSuffix (gs "foo") (gs ".a.run.app")).count '-' = 0 ∧
      hashFromURL (gs "foo") = none) ∧
    ((goTrimSuffix (gs "https://foo-dpyb4duzqq-uc.a.run.app") (gs ".a.run.app")).count '-' ≠ 0 ∧
      (hashFromURL (gs "https://foo-dpyb4duzqq-uc.a.run.app")).isSome = true) :=
  ⟨⟨by decide, hashFromURL_partial_without_dash.1 (gs "foo") (by decide)⟩,
   ⟨by decide, hashFromURL_partial_without_dash.2 (gs "https://foo-dpyb4duzqq-uc.a.run.app")
     (by decide)⟩⟩
